import Mathlib

/-!
Verification of the `zkp` crate: a compiler (`create_nipk!` macro) and runtime
for non-interactive zero-knowledge proofs of discrete-logarithm relations in a
prime-order group (Decaf over Curve25519).

Shallow embedding notes.
* The Decaf group is cyclic of prime order, so its points form a free rank-one
  module over the scalar field; we model both `Scalar` and `Point` as `ZMod q`
  with the scalar action given by ring multiplication, generic in `q` so that
  witnesses can run at a small modulus.
* Point compression is a canonical injective encoding (guaranteed by Decaf);
  we model it as the identity map on the abstract point carrier, and the
  SHA-512-then-wide-reduce challenge derivation (`Scalar::from_hash`, external
  to this crate) as an arbitrary function `hashFn` from transcripts to scalars.
* The CSPRNG is modelled as a stream `rng : ℕ → Scalar q` of the scalars it
  would return; `Scalar::random(csprng)` for the `i`-th secret yields `rng i`.
* A compiled schema is, after name resolution, a list of equations whose
  left-hand side is an index into the public list and whose right-hand side is
  a list of (public index, secret index) monomials, in declared textual order.
  The untyped, name-level schema that `create_nipk!` consumes is modelled
  separately (`NamedSchema`) for the schema-compile-time claims.
-/

namespace Zkp

/-- Scalars: integers modulo the prime group order (`curve25519_dalek::scalar::Scalar`). -/
abbrev Scalar (q : ℕ) := ZMod q

/-- Points of the prime-order group (`curve25519_dalek::decaf::DecafPoint`);
the group is cyclic of order `q`, so it is `ZMod q` as a `ZMod q`-module. -/
abbrev Point (q : ℕ) := ZMod q

/-- Canonical compressed encoding of a point (`DecafPoint::compress`).
Decaf guarantees a unique canonical encoding per point, so in the model the
encoding is the identity on the point carrier. -/
def compress {q : ℕ} (P : Point q) : Point q := P

/-- One equation `lhs = Σ_j publics[(rhs j).1] * secrets[(rhs j).2]` of a
compiled schema, with names already resolved to indices: `lhs` indexes the
public list, each monomial pairs a public index with a secret index, in the
declared left-to-right order of the RHS. -/
structure Stmt (m n : ℕ) where
  lhs : Fin n
  rhs : List (Fin n × Fin m)
deriving DecidableEq

/-- `__compute_formula_consttime!((publics, scalars) A*a + B*b + ...)`:
the right-associated sum `publics.A * scalars.a + (publics.B * scalars.b + ...)`.
The macro grammar requires at least one term; the `[]` case is vacuous and
returns the group identity. -/
def computeFormula {q m n : ℕ} (publics : Fin n → Point q)
    (scalars : Fin m → Scalar q) : List (Fin n × Fin m) → Point q
  | [] => 0
  | [t] => publics t.1 * scalars t.2
  | t :: rest => publics t.1 * scalars t.2 + computeFormula publics scalars rest

/-- `Responses` / `Randomnesses` carriers are mappings from secret names, i.e.
functions `Fin m → Scalar q` in declared secret order. A `Proof` owns a
challenge scalar and the responses, exactly the two fields of the generated
`struct Proof { challenge: Scalar, responses: Responses }`. -/
structure Proof (q m : ℕ) where
  challenge : Scalar q
  responses : Fin m → Scalar q
deriving DecidableEq

/-- `Scalar::multiply_add(a, b, c) = a*b + c`, the single constant-time
multiply-add primitive used for responses. -/
def multiply_add {q : ℕ} (a b c : Scalar q) : Scalar q := a * b + c

/-- The commitments computed in `Proof::create` by
`__compute_commitments_consttime!((publics, rand) ...)`: one point per
equation, in equation order. -/
def createCommitments {q m n : ℕ} (eqs : List (Stmt m n))
    (publics : Fin n → Point q) (rand : Fin m → Scalar q) : List (Point q) :=
  eqs.map fun e => computeFormula publics rand e.rhs

/-- The byte string absorbed by the hash in `Proof::create` (lines 279-288):
the compressed encoding of every public point in declared order of the public
list, then the compressed encoding of every commitment in equation order, and
nothing else. -/
def hashInputCreate {q n : ℕ} (publics : Fin n → Point q)
    (commitments : List (Point q)) : List (Point q) :=
  (List.ofFn publics).map compress ++ commitments.map compress

/-- The byte string absorbed by the hash in `Proof::verify` (lines 316-324):
the compressed encoding of every public point in declared order, then the
compressed encoding of every recomputed commitment in equation order. -/
def hashInputVerify {q n : ℕ} (publics : Fin n → Point q)
    (commitments : List (Point q)) : List (Point q) :=
  (List.ofFn publics).map compress ++ commitments.map compress

/-- `Proof::create(csprng, publics, secrets)`: sample one random scalar per
secret in declared order, compute the commitments, hash the transcript to a
challenge, and respond with `z_s = c * x_s + r_s` via `multiply_add`. -/
def create {q m n : ℕ} (hashFn : List (Point q) → Scalar q)
    (eqs : List (Stmt m n)) (rng : ℕ → Scalar q)
    (publics : Fin n → Point q) (secrets : Fin m → Scalar q) : Proof q m :=
  let rand : Fin m → Scalar q := fun s => rng s.val
  let commitments := createCommitments eqs publics rand
  let challenge := hashFn (hashInputCreate publics commitments)
  let responses : Fin m → Scalar q :=
    fun s => multiply_add challenge (secrets s) (rand s)
  { challenge := challenge, responses := responses }

/-- The commitments recomputed in `Proof::verify` (lines 308-314): the RHS
formula evaluated at the responses, then `commitments.lhs -= publics.lhs *
challenge` for each equation. -/
def verifyCommitments {q m n : ℕ} (eqs : List (Stmt m n))
    (publics : Fin n → Point q) (proof : Proof q m) : List (Point q) :=
  eqs.map fun e =>
    computeFormula publics proof.responses e.rhs - publics e.lhs * proof.challenge

/-- `Proof::verify(publics) -> Result<(),()>`: recompute the commitments by the
rearranged identity, rehash the transcript, and accept iff the recomputed
challenge equals the stored one. -/
def verify {q m n : ℕ} (hashFn : List (Point q) → Scalar q)
    (eqs : List (Stmt m n)) (publics : Fin n → Point q)
    (proof : Proof q m) : Except Unit Unit :=
  let commitments := verifyCommitments eqs publics proof
  let challenge := hashFn (hashInputVerify publics commitments)
  if challenge = proof.challenge then Except.ok () else Except.error ()

/-- Serialization of a `Proof` as the sequence of its scalar fields, in the
order fixed by the generated struct declarations: the challenge first, then
each response in declared secret order (the derived Serde implementation
serializes fields in declaration order; the codec framing around this scalar
sequence is external to the crate). -/
def encode {q m : ℕ} (p : Proof q m) : List (Scalar q) :=
  p.challenge :: List.ofFn p.responses

/-- Deserialization: read the challenge, then exactly `m` responses. -/
def decode {q : ℕ} (m : ℕ) (l : List (Scalar q)) : Option (Proof q m) :=
  match l with
  | [] => none
  | c :: zs =>
    if h : zs.length = m then
      some { challenge := c, responses := fun i => zs.get (Fin.cast h.symm i) }
    else none

/-- The name-level schema consumed by `create_nipk!`: a list of secret names,
a list of public names, and equations `(lhs, [(point, scalar), ...])`, all in
declared textual order. -/
structure NamedSchema where
  secrets : List String
  publics : List String
  equations : List (String × List (String × String))
deriving DecidableEq

/-- Whether the module emitted by `create_nipk!` for this schema compiles.
The macro performs no checks of its own; the conditions are exactly those
imposed by the generated Rust code: each repetition list is nonempty (the
macro matches `+` repetitions and each RHS needs at least one term), the
secret names are pairwise distinct (fields of `Secrets`, `Randomnesses`,
`Responses`), the public names are pairwise distinct (fields of `Publics`),
the LHS names are pairwise distinct (fields of `Commitments`), every LHS and
every RHS point name is a field of `Publics`, and every RHS scalar name is a
field of `Secrets`. Secret and public names live in distinct structs, so no
condition relates the two namespaces. -/
def compiles (s : NamedSchema) : Bool :=
  !s.secrets.isEmpty && !s.publics.isEmpty && !s.equations.isEmpty &&
  decide s.secrets.Nodup && decide s.publics.Nodup &&
  decide (s.equations.map Prod.fst).Nodup &&
  s.equations.all fun e =>
    !e.2.isEmpty && s.publics.contains e.1 &&
    e.2.all fun t => s.publics.contains t.1 && s.secrets.contains t.2

/-- A schema whose identifier `x` is declared both as a secret and as a
public point: `create_nipk!{m, (x), (A, x) : A = (x * x)}`. -/
def overlapSchema : NamedSchema :=
  { secrets := ["x"]
  , publics := ["A", "x"]
  , equations := [("A", [("x", "x")])] }

/-- `computeFormula` is the sum of its monomials. -/
theorem computeFormula_eq_sum {q m n : ℕ} (publics : Fin n → Point q)
    (scalars : Fin m → Scalar q) (terms : List (Fin n × Fin m)) :
    computeFormula publics scalars terms =
      (terms.map fun t => publics t.1 * scalars t.2).sum := by
  induction terms with
  | nil => rfl
  | cons t rest ih =>
    cases rest with
    | nil => simp [computeFormula]
    | cons u rest2 =>
      simp only [computeFormula, List.map_cons, List.sum_cons] at ih ⊢
      rw [ih]

/-- Linearity of the formula in the scalar assignment. -/
theorem computeFormula_linear {q m n : ℕ} (publics : Fin n → Point q)
    (c : Scalar q) (x r : Fin m → Scalar q) (terms : List (Fin n × Fin m)) :
    computeFormula publics (fun s => c * x s + r s) terms =
      c * computeFormula publics x terms + computeFormula publics r terms := by
  simp only [computeFormula_eq_sum]
  induction terms with
  | nil => simp
  | cons t rest ih =>
    simp only [List.map_cons, List.sum_cons]
    rw [ih]
    ring

/-- The two hash-input constructions of `create` and `verify` are the same
composition. -/
theorem hashInput_agree {q n : ℕ} (publics : Fin n → Point q)
    (commitments : List (Point q)) :
    hashInputVerify publics commitments = hashInputCreate publics commitments := rfl

/-- On a proof produced by `create` from secrets satisfying every equation,
the commitments recomputed by `verify` coincide with the commitments
`create` computed from the randomnesses. -/
theorem verifyCommitments_create {q m n : ℕ} (hashFn : List (Point q) → Scalar q)
    (eqs : List (Stmt m n)) (rng : ℕ → Scalar q)
    (publics : Fin n → Point q) (secrets : Fin m → Scalar q)
    (h : ∀ e ∈ eqs, publics e.lhs = computeFormula publics secrets e.rhs) :
    verifyCommitments eqs publics (create hashFn eqs rng publics secrets) =
      createCommitments eqs publics (fun s => rng s.val) := by
  unfold verifyCommitments createCommitments
  refine List.map_congr_left fun e he => ?_
  have hr : (create hashFn eqs rng publics secrets).responses = fun s =>
      (create hashFn eqs rng publics secrets).challenge * secrets s + rng s.val := rfl
  rw [hr, computeFormula_linear, ← h e he]
  ring

/-- C1. Completeness: for every compiled schema, publics, secrets satisfying
all the schema's equations, and RNG state, verifying a freshly created proof
returns `Ok`. -/
theorem completeness {q m n : ℕ} (hashFn : List (Point q) → Scalar q)
    (eqs : List (Stmt m n)) (rng : ℕ → Scalar q)
    (publics : Fin n → Point q) (secrets : Fin m → Scalar q)
    (h : ∀ e ∈ eqs, publics e.lhs = computeFormula publics secrets e.rhs) :
    verify hashFn eqs publics (create hashFn eqs rng publics secrets) =
      Except.ok () := by
  have hch : (create hashFn eqs rng publics secrets).challenge =
      hashFn (hashInputCreate publics
        (createCommitments eqs publics fun s => rng s.val)) := rfl
  simp only [verify, verifyCommitments_create hashFn eqs rng publics secrets h,
    hashInput_agree, hch, if_pos]

/-- Concrete schema for witnesses: one secret `x`, two publics `G, A` with
`G = publics 0`, `A = publics 1`, single equation `A = G * x`, over `ZMod 5`. -/
def exEqs : List (Stmt 1 2) := [⟨1, [(0, 0)]⟩]

/-- Witness hash function: sum of transcript entries. -/
def exHashFn (l : List (Point 5)) : Scalar 5 := l.sum

/-- Witness publics: `G = 2`, `A = G * x = 1` (with `x = 3` in `ZMod 5`). -/
def exPublics : Fin 2 → Point 5 := ![2, 1]

/-- Witness secrets: `x = 3`. -/
def exSecrets : Fin 1 → Scalar 5 := ![3]

/-- Witness RNG stream: always returns `4`. -/
def exRng : ℕ → Scalar 5 := fun _ => 4

/-- Witness for C1: the concrete DLOG instance satisfies the equation and its
fresh proof verifies. -/
theorem completeness_witness :
    (∀ e ∈ exEqs, exPublics e.lhs = computeFormula exPublics exSecrets e.rhs) ∧
      verify exHashFn exEqs exPublics
        (create exHashFn exEqs exRng exPublics exSecrets) = Except.ok () :=
  ⟨by decide, completeness exHashFn exEqs exRng exPublics exSecrets (by decide)⟩

/-- C2. `verify` returns `Ok` exactly when the challenge recomputed from the
transcript equals the stored challenge, and the outcome is only the binary
`Ok(())` or `Err(())`, carrying no further information. -/
theorem verify_ok_iff {q m n : ℕ} (hashFn : List (Point q) → Scalar q)
    (eqs : List (Stmt m n)) (publics : Fin n → Point q) (proof : Proof q m) :
    (verify hashFn eqs publics proof = Except.ok () ↔
      hashFn (hashInputVerify publics (verifyCommitments eqs publics proof)) =
        proof.challenge) ∧
    (verify hashFn eqs publics proof = Except.ok () ∨
      verify hashFn eqs publics proof = Except.error ()) := by
  constructor
  · simp only [verify]
    split <;> simp_all
  · simp only [verify]
    split <;> simp

/-- C3. In `verify`, the `i`-th recomputed commitment is the equation's RHS
formula evaluated at the response scalars, minus the challenge times the
equation's LHS public point. -/
theorem verifyCommitments_get {q m n : ℕ} (eqs : List (Stmt m n))
    (publics : Fin n → Point q) (proof : Proof q m) (i : ℕ) (e : Stmt m n)
    (he : eqs[i]? = some e) :
    (verifyCommitments eqs publics proof)[i]? =
      some (computeFormula publics proof.responses e.rhs -
        proof.challenge * publics e.lhs) := by
  simp [verifyCommitments, List.getElem?_map, he, mul_comm]

/-- Witness equation for C3. -/
def exE : Stmt 1 2 := ⟨1, [(0, 0)]⟩

/-- Witness proof value for C3 (arbitrary contents). -/
def exProof : Proof 5 1 := { challenge := 2, responses := fun _ => 3 }

/-- Witness for C3 at the concrete one-equation schema. -/
theorem verifyCommitments_get_witness :
    exEqs[0]? = some exE ∧
      (verifyCommitments exEqs exPublics exProof)[0]? =
        some (computeFormula exPublics exProof.responses exE.rhs -
          exProof.challenge * exPublics exE.lhs) :=
  ⟨rfl, verifyCommitments_get exEqs exPublics exProof 0 exE rfl⟩

/-- C4. The transcript is exactly the compressed publics in declared order
followed by the compressed commitments in equation order and nothing else;
`create` and `verify` build the identical composition, and the challenge is
the hash reduction of that transcript. -/
theorem transcript_composition {q m n : ℕ} (hashFn : List (Point q) → Scalar q)
    (eqs : List (Stmt m n)) (rng : ℕ → Scalar q) (publics : Fin n → Point q)
    (secrets : Fin m → Scalar q) (proof : Proof q m) (C : List (Point q)) :
    hashInputCreate publics C =
      (List.ofFn publics).map compress ++ C.map compress ∧
    hashInputVerify publics C = hashInputCreate publics C ∧
    (create hashFn eqs rng publics secrets).challenge =
      hashFn (hashInputCreate publics
        (createCommitments eqs publics fun s => rng s.val)) ∧
    verify hashFn eqs publics proof =
      (if hashFn (hashInputVerify publics (verifyCommitments eqs publics proof)) =
          proof.challenge
       then Except.ok () else Except.error ()) :=
  ⟨rfl, rfl, rfl, rfl⟩

/-- C5. `create` draws one fresh random scalar per secret (the `s`-th secret
consumes the `s`-th RNG output), each commitment is the equation's formula at
the randomnesses, each response is `multiply_add(challenge, x_s, r_s)`, and
the returned proof is exactly the challenge with these responses. -/
theorem create_spec {q m n : ℕ} (hashFn : List (Point q) → Scalar q)
    (eqs : List (Stmt m n)) (rng : ℕ → Scalar q) (publics : Fin n → Point q)
    (secrets : Fin m → Scalar q) :
    (create hashFn eqs rng publics secrets).challenge =
      hashFn (hashInputCreate publics
        (createCommitments eqs publics fun s => rng s.val)) ∧
    createCommitments eqs publics (fun s => rng s.val) =
      eqs.map (fun e => computeFormula publics (fun s => rng s.val) e.rhs) ∧
    (∀ s, (create hashFn eqs rng publics secrets).responses s =
      multiply_add (create hashFn eqs rng publics secrets).challenge
        (secrets s) (rng s.val)) ∧
    create hashFn eqs rng publics secrets =
      { challenge := (create hashFn eqs rng publics secrets).challenge
      , responses := fun s =>
          multiply_add (create hashFn eqs rng publics secrets).challenge
            (secrets s) (rng s.val) } :=
  ⟨rfl, rfl, fun _ => rfl, rfl⟩

/-- C6. Round-trip: decoding the encoding of any proof returns it, and the
serialized representation is the challenge scalar followed by the response
scalars in declared secret order. -/
theorem encode_decode {q m : ℕ} (p : Proof q m) :
    decode m (encode p) = some p ∧
      encode p = p.challenge :: List.ofFn p.responses := by
  refine ⟨?_, rfl⟩
  obtain ⟨c, z⟩ := p
  show decode m (c :: List.ofFn z) = some ⟨c, z⟩
  simp only [decode]
  rw [dif_pos (List.length_ofFn z)]
  simp only [Option.some.injEq, Proof.mk.injEq, true_and]
  funext i
  rw [List.get_ofFn]
  congr 1

/-- C7. `create` cannot fail: for every hash, schema, RNG state, publics and
secrets it returns a `Proof` value; there is no error return. -/
theorem create_total {q m n : ℕ} (hashFn : List (Point q) → Scalar q)
    (eqs : List (Stmt m n)) (rng : ℕ → Scalar q) (publics : Fin n → Point q)
    (secrets : Fin m → Scalar q) :
    ∃ c : Scalar q, ∃ z : Fin m → Scalar q,
      create hashFn eqs rng publics secrets = { challenge := c, responses := z } :=
  ⟨_, _, rfl⟩

/-- C8 counterexample: the schema `(x), (A, x) : A = (x * x)`, in which `x` is
both a secret and a public name, is accepted by schema compilation. -/
theorem overlap_not_rejected :
    ("x" ∈ overlapSchema.secrets ∧ "x" ∈ overlapSchema.publics) ∧
      compiles overlapSchema = true := by
  decide

/-- C8 amended: a schema sharing an identifier between the secret and public
lists is not rejected; compilation succeeds exactly when the lists and each
RHS are nonempty, each namespace is internally duplicate-free, and every name
resolves — with no disjointness condition between secrets and publics. -/
theorem compiles_iff (s : NamedSchema) :
    compiles s = true ↔
      s.secrets ≠ [] ∧ s.publics ≠ [] ∧ s.equations ≠ [] ∧
      s.secrets.Nodup ∧ s.publics.Nodup ∧ (s.equations.map Prod.fst).Nodup ∧
      ∀ e ∈ s.equations, e.2 ≠ [] ∧ e.1 ∈ s.publics ∧
        ∀ t ∈ e.2, t.1 ∈ s.publics ∧ t.2 ∈ s.secrets := by
  simp [compiles, List.isEmpty_iff, List.all_eq_true, List.elem_iff, and_assoc]

/-- C9. Noninterference: two runs of `create` with the same RNG state but
different secrets produce the same challenge; the challenge is the hash of a
transcript built only from the publics and the secret-independent
commitments, and the secrets enter only the responses. -/
theorem noninterference {q m n : ℕ} (hashFn : List (Point q) → Scalar q)
    (eqs : List (Stmt m n)) (rng : ℕ → Scalar q) (publics : Fin n → Point q)
    (x y : Fin m → Scalar q) :
    (create hashFn eqs rng publics x).challenge =
      (create hashFn eqs rng publics y).challenge ∧
    (create hashFn eqs rng publics x).challenge =
      hashFn (hashInputCreate publics
        (createCommitments eqs publics fun s => rng s.val)) ∧
    (∀ s, (create hashFn eqs rng publics x).responses s =
      multiply_add (create hashFn eqs rng publics x).challenge (x s) (rng s.val)) :=
  ⟨rfl, rfl, fun _ => rfl⟩

/-- C10. `verify` is total over arbitrary proof contents: for every publics
and every proof value whatsoever, it returns `Ok(())` or `Err(())`. -/
theorem verify_total {q m n : ℕ} (hashFn : List (Point q) → Scalar q)
    (eqs : List (Stmt m n)) (publics : Fin n → Point q) (proof : Proof q m) :
    verify hashFn eqs publics proof = Except.ok () ∨
      verify hashFn eqs publics proof = Except.error () := by
  simp only [verify]
  split <;> simp

end Zkp
